import Mathlib

/-!
Verification development for the edge-pruning system: a shallow embedding
of the stochastic mask sampler (`MaskSampler.py`) and of the edge patcher
(`EdgePruner.py`).  Tensors are modelled as index functions with rational
entries and tensor reductions are explicit finite sums; the real-valued
relaxation math (sigmoid, log) is modelled over the reals.  The embedding
fixes `cache_compressed_attn = True` and `ablation_backward = False`, the
constructor defaults used by the training script.
-/

namespace EdgePruning

/-- Indicator-branch modal substitution term appearing in both patching hooks:
`(mask < 0.001) * (1 - mask) * modal + (mask >= 0.001) * (1 - mask) * modal.detach()`.
Detaching changes only gradients, so at value level each branch carries
`(1 - g) * v`; the two indicator branches are kept to mirror the source. -/
def modalTerm (g v : ℚ) : ℚ :=
  (if g < 1 / 1000 then (1 : ℚ) else 0) * ((1 - g) * v) +
    (if 1 / 1000 ≤ g then (1 : ℚ) else 0) * ((1 - g) * v)

/-- Threshold-free reference form of the modal contribution, `(1 - g) * v`. -/
def modalTermRef (g v : ℚ) : ℚ := (1 - g) * v

/-- Sequence-dimension form of `prepend_orig` (non-parallel inference):
`torch.cat([orig_in[:,[0]].detach(), out[:,1:]], dim=1)` — position 0 keeps the
original incoming value, later positions take the reconstructed value. -/
def prependOrigSeq {α : Type} (origIn out : ℕ → ℕ → α) : ℕ → ℕ → α :=
  fun b p => if p = 0 then origIn b p else out b p

/-- Batch-dimension form of `prepend_orig` (parallel inference):
`torch.cat([orig_in[:batch_size], out], dim=0)` — the first `bsz` batch rows
keep the original value in full, remaining rows take the reconstructed value. -/
def prependOrigPar {α : Type} (bsz : ℕ) (origIn out : ℕ → ℕ → α) : ℕ → ℕ → α :=
  fun b p => if b < bsz then origIn b p else out (b - bsz) p

/-- The `prepend_orig` closure of the patching hooks, selecting between the
parallel-inference and the sequence (BOS-protecting) branch. -/
def prependOrig {α : Type} (parallel : Bool) (bsz : ℕ) (origIn out : ℕ → ℕ → α) :
    ℕ → ℕ → α :=
  if parallel then prependOrigPar bsz origIn out else prependOrigSeq origIn out

/-- Reconstructed destination input of `pruning_edge_attention_hook_all_tokens`
(before `prepend_orig`), with compressed attention caching: the mask-weighted sum
of cached upstream MLP/embedding outputs and cached per-head attention outputs
(re-projected through `W_O`), plus the modal substitution terms and the
accumulated attention output biases.  Index order: `b p h d` = batch, sequence
position, destination head, model dimension; `nMlp = layer_no + 1` and
`nAttn = layer_no` are the cache lengths at a hook for layer `layer_no`. -/
def attnHookOut (nMlp nAttn nHeads nDh : ℕ)
    (mlpMask : ℕ → ℕ → ℕ → ℚ) (attnMask : ℕ → ℕ → ℕ → ℕ → ℚ)
    (mlpCache : ℕ → ℕ → ℕ → ℕ → ℚ) (attnCache : ℕ → ℕ → ℕ → ℕ → ℕ → ℚ)
    (modalMlp : ℕ → ℕ → ℚ) (modalAttn : ℕ → ℕ → ℕ → ℚ)
    (wO : ℕ → ℕ → ℕ → ℕ → ℚ) (postBias : ℕ → ℕ → ℚ)
    (b p h d : ℕ) : ℚ :=
  (∑ l ∈ Finset.range nMlp, mlpMask b h l * mlpCache l b p d) +
    (∑ l ∈ Finset.range nMlp, modalTerm (mlpMask b h l) (modalMlp l d)) +
    (∑ l ∈ Finset.range nAttn, ∑ s ∈ Finset.range nHeads, ∑ t ∈ Finset.range nDh,
      (attnMask b h l s * attnCache l b p s t +
        modalTerm (attnMask b h l s) (modalAttn l s t)) * wO l s t d) +
    (∑ l ∈ Finset.range nAttn, postBias l d)

/-- Reference form of `attnHookOut` with the threshold-free modal contribution. -/
def attnHookOutRef (nMlp nAttn nHeads nDh : ℕ)
    (mlpMask : ℕ → ℕ → ℕ → ℚ) (attnMask : ℕ → ℕ → ℕ → ℕ → ℚ)
    (mlpCache : ℕ → ℕ → ℕ → ℕ → ℚ) (attnCache : ℕ → ℕ → ℕ → ℕ → ℕ → ℚ)
    (modalMlp : ℕ → ℕ → ℚ) (modalAttn : ℕ → ℕ → ℕ → ℚ)
    (wO : ℕ → ℕ → ℕ → ℕ → ℚ) (postBias : ℕ → ℕ → ℚ)
    (b p h d : ℕ) : ℚ :=
  (∑ l ∈ Finset.range nMlp, mlpMask b h l * mlpCache l b p d) +
    (∑ l ∈ Finset.range nMlp, modalTermRef (mlpMask b h l) (modalMlp l d)) +
    (∑ l ∈ Finset.range nAttn, ∑ s ∈ Finset.range nHeads, ∑ t ∈ Finset.range nDh,
      (attnMask b h l s * attnCache l b p s t +
        modalTermRef (attnMask b h l s) (modalAttn l s t)) * wO l s t d) +
    (∑ l ∈ Finset.range nAttn, postBias l d)

/-- Full attention-input patching hook: reconstruction followed by `prepend_orig`. -/
def attnHook (parallel : Bool) (bsz nMlp nAttn nHeads nDh : ℕ)
    (origIn : ℕ → ℕ → ℕ → ℕ → ℚ)
    (mlpMask : ℕ → ℕ → ℕ → ℚ) (attnMask : ℕ → ℕ → ℕ → ℕ → ℚ)
    (mlpCache : ℕ → ℕ → ℕ → ℕ → ℚ) (attnCache : ℕ → ℕ → ℕ → ℕ → ℕ → ℚ)
    (modalMlp : ℕ → ℕ → ℚ) (modalAttn : ℕ → ℕ → ℕ → ℚ)
    (wO : ℕ → ℕ → ℕ → ℕ → ℚ) (postBias : ℕ → ℕ → ℚ) :
    ℕ → ℕ → ℕ → ℕ → ℚ :=
  prependOrig parallel bsz origIn
    (attnHookOut nMlp nAttn nHeads nDh mlpMask attnMask mlpCache attnCache
      modalMlp modalAttn wO postBias)

/-- Reconstructed destination input of `pruning_edge_mlp_hook_all_tokens`
(before `prepend_orig`); same structure as the attention hook without the
destination-head dimension.  At a hook for layer `layer_no`,
`nMlp = layer_no + 1` and `nAttn = min (layer_no + 1) n_layers`. -/
def mlpHookOut (nMlp nAttn nHeads nDh : ℕ)
    (mlpMask : ℕ → ℕ → ℚ) (attnMask : ℕ → ℕ → ℕ → ℚ)
    (mlpCache : ℕ → ℕ → ℕ → ℕ → ℚ) (attnCache : ℕ → ℕ → ℕ → ℕ → ℕ → ℚ)
    (modalMlp : ℕ → ℕ → ℚ) (modalAttn : ℕ → ℕ → ℕ → ℚ)
    (wO : ℕ → ℕ → ℕ → ℕ → ℚ) (postBias : ℕ → ℕ → ℚ)
    (b p d : ℕ) : ℚ :=
  (∑ l ∈ Finset.range nMlp, mlpMask b l * mlpCache l b p d) +
    (∑ l ∈ Finset.range nMlp, modalTerm (mlpMask b l) (modalMlp l d)) +
    (∑ l ∈ Finset.range nAttn, ∑ s ∈ Finset.range nHeads, ∑ t ∈ Finset.range nDh,
      (attnMask b l s * attnCache l b p s t +
        modalTerm (attnMask b l s) (modalAttn l s t)) * wO l s t d) +
    (∑ l ∈ Finset.range nAttn, postBias l d)

/-- Reference form of `mlpHookOut` with the threshold-free modal contribution. -/
def mlpHookOutRef (nMlp nAttn nHeads nDh : ℕ)
    (mlpMask : ℕ → ℕ → ℚ) (attnMask : ℕ → ℕ → ℕ → ℚ)
    (mlpCache : ℕ → ℕ → ℕ → ℕ → ℚ) (attnCache : ℕ → ℕ → ℕ → ℕ → ℕ → ℚ)
    (modalMlp : ℕ → ℕ → ℚ) (modalAttn : ℕ → ℕ → ℕ → ℚ)
    (wO : ℕ → ℕ → ℕ → ℕ → ℚ) (postBias : ℕ → ℕ → ℚ)
    (b p d : ℕ) : ℚ :=
  (∑ l ∈ Finset.range nMlp, mlpMask b l * mlpCache l b p d) +
    (∑ l ∈ Finset.range nMlp, modalTermRef (mlpMask b l) (modalMlp l d)) +
    (∑ l ∈ Finset.range nAttn, ∑ s ∈ Finset.range nHeads, ∑ t ∈ Finset.range nDh,
      (attnMask b l s * attnCache l b p s t +
        modalTermRef (attnMask b l s) (modalAttn l s t)) * wO l s t d) +
    (∑ l ∈ Finset.range nAttn, postBias l d)

/-- Full MLP-input patching hook: reconstruction followed by `prepend_orig`. -/
def mlpHook (parallel : Bool) (bsz nMlp nAttn nHeads nDh : ℕ)
    (origIn : ℕ → ℕ → ℕ → ℚ)
    (mlpMask : ℕ → ℕ → ℚ) (attnMask : ℕ → ℕ → ℕ → ℚ)
    (mlpCache : ℕ → ℕ → ℕ → ℕ → ℚ) (attnCache : ℕ → ℕ → ℕ → ℕ → ℕ → ℚ)
    (modalMlp : ℕ → ℕ → ℚ) (modalAttn : ℕ → ℕ → ℕ → ℚ)
    (wO : ℕ → ℕ → ℕ → ℕ → ℚ) (postBias : ℕ → ℕ → ℚ) :
    ℕ → ℕ → ℕ → ℚ :=
  prependOrig parallel bsz origIn
    (mlpHookOut nMlp nAttn nHeads nDh mlpMask attnMask mlpCache attnCache
      modalMlp modalAttn wO postBias)

/-- Final hook `pruning_edge_final_hook_all_tokens`: the MLP hook applied at
`layer_no = n_layers` followed by latching to the last-token mask,
`(out * last_token_mask.unsqueeze(-1)).sum(dim=2)`. -/
def finalHook (parallel : Bool) (bsz nMlp nAttn nHeads nDh seqLen : ℕ)
    (origIn : ℕ → ℕ → ℕ → ℚ) (ltm : ℕ → ℕ → ℚ)
    (mlpMask : ℕ → ℕ → ℚ) (attnMask : ℕ → ℕ → ℕ → ℚ)
    (mlpCache : ℕ → ℕ → ℕ → ℕ → ℚ) (attnCache : ℕ → ℕ → ℕ → ℕ → ℕ → ℚ)
    (modalMlp : ℕ → ℕ → ℚ) (modalAttn : ℕ → ℕ → ℕ → ℚ)
    (wO : ℕ → ℕ → ℕ → ℕ → ℚ) (postBias : ℕ → ℕ → ℚ)
    (b d : ℕ) : ℚ :=
  ∑ p ∈ Finset.range seqLen,
    ltm b p *
      mlpHook parallel bsz nMlp nAttn nHeads nDh origIn mlpMask attnMask
        mlpCache attnCache modalMlp modalAttn wO postBias b p d

/-- Residual-stream value of the base model at a destination input: the sum of
all cached upstream MLP/embedding outputs, all cached attention head outputs
re-projected through `W_O`, and the accumulated attention output biases.  This
is the identity the caches satisfy for the unpatched model. -/
def residStream (nMlp nAttn nHeads nDh : ℕ)
    (mlpCache : ℕ → ℕ → ℕ → ℕ → ℚ) (attnCache : ℕ → ℕ → ℕ → ℕ → ℕ → ℚ)
    (wO : ℕ → ℕ → ℕ → ℕ → ℚ) (postBias : ℕ → ℕ → ℚ)
    (b p d : ℕ) : ℚ :=
  (∑ l ∈ Finset.range nMlp, mlpCache l b p d) +
    (∑ l ∈ Finset.range nAttn, ∑ s ∈ Finset.range nHeads, ∑ t ∈ Finset.range nDh,
      attnCache l b p s t * wO l s t d) +
    (∑ l ∈ Finset.range nAttn, postBias l d)

/-- The cache hook `cache_hook_all_tokens`: appends the activations to the
storage list and passes the activation value through (in parallel-inference
mode it stores the sample rows and returns the first `bsz` rows).  The first
component is the new storage, the second the value returned downstream;
activation tensors are abstracted as lists of batch rows. -/
def cacheHookAllTokens {α : Type} (parallel : Bool) (bsz : ℕ)
    (storage : List (List α)) (activations : List α) :
    List (List α) × List α :=
  if parallel then (storage ++ [activations.drop bsz], activations.take bsz)
  else (storage ++ [activations], activations)

/-- Logistic sigmoid over the reals, `torch.sigmoid`. -/
noncomputable def sigmoid (x : ℝ) : ℝ := 1 / (1 + Real.exp (-x))

/-- The hard-concrete gate sample of `MaskSampler.sample_hard_concrete`:
`concrete = sigmoid((log(0.001 + u) - log(1 - u) + loc) / (relu(sharp) + 0.001))`
followed by `((concrete + endpts[0]) * (endpts[1] - endpts[0])).clamp(0, 1)`,
with `relu x = max x 0` and `clamp(0,1) x = min 1 (max 0 x)`. -/
noncomputable def sampleHardConcrete (e0 e1 unif loc sharp : ℝ) : ℝ :=
  min 1 (max 0
    ((sigmoid ((Real.log (1 / 1000 + unif) - Real.log (1 - unif) + loc) /
        (max sharp 0 + 1 / 1000)) + e0) * (e1 - e0)))

/-- The per-edge complexity (sparsity) penalty of `MaskSampler.complexity_loss`:
`(loc - relu(sharp) * log(-endpts[0] / endpts[1])).sigmoid()`. -/
noncomputable def complexityLoss (e0 e1 loc sharp : ℝ) : ℝ :=
  sigmoid (loc - max sharp 0 * Real.log (-e0 / e1))

/-- Floating-point parameter value: a finite rational, an infinity, or NaN.
Used to model the NaN-repair logic of `MaskSampler.fix_nans`. -/
inductive FVal where
  | fin (q : ℚ)
  | pinf
  | ninf
  | nan
deriving DecidableEq

/-- Tensor-level `isnan` on a single value. -/
def FVal.isnan : FVal → Bool
  | .nan => true
  | _ => false

/-- Tensor-level `isfinite` on a single value. -/
def FVal.isfinite : FVal → Bool
  | .fin _ => true
  | _ => false

/-- The sampler's fixed repair default `def_value = 2/3`. -/
def defValue : FVal := FVal.fin (2 / 3)

/-- One row of a sampling-parameter tensor: `(location, sharpness)`. -/
def fixRow (r : FVal × FVal) : FVal × FVal :=
  if r.2.isnan then (r.1, defValue) else r

/-- The in-place repair `ts[ts[:,1].isnan().nonzero()[:,0], -1] = def_value`:
every row whose sharpness is NaN gets its sharpness reset to the default. -/
def fixTensor (ts : List (FVal × FVal)) : List (FVal × FVal) :=
  ts.map fixRow

/-- Whether a row holds a NaN in either coordinate. -/
def rowHasNan (r : FVal × FVal) : Bool := r.1.isnan || r.2.isnan

/-- `sampling_params.isnan().sum() > 0` over all parameter groups. -/
def paramsHaveNan (pss : List (List (FVal × FVal))) : Bool :=
  pss.any fun ts => ts.any rowHasNan

/-- `MaskSampler.fix_nans`: when the flattened parameters contain a NaN, every
tensor's NaN-sharpness rows are repaired in place and the returned flag is
true iff no tensor still contains a NaN afterwards; when there is no NaN the
parameters are untouched and the flag is true. Returns (new parameter state,
returned boolean). -/
def fixNans (pss : List (List (FVal × FVal))) :
    List (List (FVal × FVal)) × Bool :=
  if paramsHaveNan pss then
    (pss.map fixTensor, pss.all fun ts => !((fixTensor ts).any rowHasNan))
  else (pss, true)

/-- All parameter entries (location and sharpness) are finite. -/
def allFiniteParams (pss : List (List (FVal × FVal))) : Bool :=
  pss.all fun ts => ts.all fun r => r.1.isfinite && r.2.isfinite

/-- No parameter entry is NaN. -/
def noNanParams (pss : List (List (FVal × FVal))) : Bool :=
  pss.all fun ts => !(ts.any rowHasNan)

/-- Rational `relu`. -/
def reluQ (x : ℚ) : ℚ := max x 0

/-- The raw quotient `(sharp - 1).relu().sum() / (sharp > 1).sum()` from
`get_mask_loss`, with `none` standing for the non-finite float result of a
zero-denominator division. -/
def tempCondRaw (sharps : List ℚ) : Option ℚ :=
  if (sharps.filter fun s => 1 < s).length = 0 then none
  else some ((sharps.map fun s => reluQ (s - 1)).sum /
    ((sharps.filter fun s => 1 < s).length : ℚ))

/-- `torch.nan_to_num(x, nan=0, posinf=0, neginf=0)`: every non-finite value
is replaced by 0. -/
def nanToNumZero : Option ℚ → ℚ
  | none => 0
  | some q => q

/-- The `temp_cond` metric of `MaskSampler.get_mask_loss`:
`torch.nan_to_num((sharp - 1).relu().sum() / (sharp > 1).sum(), ...) + 1`
computed on the sharpness column of the flattened parameters. -/
def getMaskLossTempCond (params : List (ℚ × ℚ)) : ℚ :=
  nanToNumZero (tempCondRaw (params.map Prod.snd)) + 1

/-- One update of the early-termination counter in `EdgePruner.early_term`:
increment on the convergence condition, otherwise
`max(0, early_term_count - 2)` (natural subtraction floors at zero). -/
def earlyTermStep (cond : Bool) (c : ℕ) : ℕ :=
  if cond then c + 1 else c - 2

/-- A full `early_term` call: before 500 logged steps it returns 0 without
touching the counter; afterwards it updates the counter and returns it.
Result: (new counter, returned value). -/
def earlyTermCall (t : ℕ) (cond : Bool) (c : ℕ) : ℕ × ℕ :=
  if t < 500 then (c, 0)
  else (earlyTermStep cond c, earlyTermStep cond c)

/-- Counter value after a sequence of post-500-step `early_term` calls whose
convergence conditions are given by the list, starting from counter 0. -/
def counterAfter (conds : List Bool) : ℕ :=
  conds.foldl (fun c b => earlyTermStep b c) 0

/-- Stage of `pruning_edge_attention_hook_all_tokens` at which an exception is
raised inside the `try` block. -/
inductive FailStage where
  | mlpMaskLookup
  | mlpStack
  | attnMaskLookup
  | attnCompute
deriving DecidableEq

/-- Diagnostic operands the `except` block prints in order: the mlp-attn mask
tensor, `orig_in.shape`, `mlp_mask.shape`, `attn_mask.shape`. -/
inductive Operand where
  | sampledMaskTensor
  | origShape
  | mlpMaskShape
  | attnMaskShape
deriving DecidableEq

/-- Exception finally propagating out of the hook. -/
inductive PyExc where
  | original
  | unboundLocal
deriving DecidableEq

/-- Whether the local `mlp_mask` is bound when the given stage raises. -/
def mlpMaskBoundAt : FailStage → Bool
  | .mlpMaskLookup => false
  | _ => true

/-- Whether the local `attn_mask` is bound when the given stage raises.
It is assigned only after the mlp reconstruction and its own lookup succeed. -/
def attnMaskBoundAt : FailStage → Bool
  | .attnCompute => true
  | _ => false

/-- Python semantics of the `except` block
`print(mask); print(orig_in.shape); print(mlp_mask.shape);
print(attn_mask.shape); raise e`: each print of an unbound local raises
`UnboundLocalError` on the spot, abandoning the rest of the handler, so the
original exception is re-raised only when both locals are bound. Returns the
operands actually printed and the exception that propagates. -/
def attnHookHandler (mlpBound attnBound : Bool) : List Operand × PyExc :=
  if !mlpBound then ([.sampledMaskTensor, .origShape], .unboundLocal)
  else if !attnBound then
    ([.sampledMaskTensor, .origShape, .mlpMaskShape], .unboundLocal)
  else ([.sampledMaskTensor, .origShape, .mlpMaskShape, .attnMaskShape],
    .original)

/-- Handler outcome when the `try` block raises at the given stage. -/
def attnHookOnException (s : FailStage) : List Operand × PyExc :=
  attnHookHandler (mlpMaskBoundAt s) (attnMaskBoundAt s)

end EdgePruning

namespace EdgePruning

theorem modalTerm_eq (g v : ℚ) : modalTerm g v = (1 - g) * v := by
  unfold modalTerm
  by_cases h : g < 1 / 1000
  · rw [if_pos h, if_neg (not_le.mpr h)]; ring
  · rw [if_neg h, if_pos (not_lt.mp h)]; ring

theorem modalTerm_one (v : ℚ) : modalTerm 1 v = 0 := by
  rw [modalTerm_eq]; ring

theorem modalTerm_zero (v : ℚ) : modalTerm 0 v = v := by
  rw [modalTerm_eq]; ring

end EdgePruning

namespace EdgePruning

theorem attnHookOut_ones (nMlp nAttn nHeads nDh : ℕ)
    (amlp : ℕ → ℕ → ℕ → ℚ) (aattn : ℕ → ℕ → ℕ → ℕ → ℚ)
    (mlpCache : ℕ → ℕ → ℕ → ℕ → ℚ) (attnCache : ℕ → ℕ → ℕ → ℕ → ℕ → ℚ)
    (modalMlp : ℕ → ℕ → ℚ) (modalAttn : ℕ → ℕ → ℕ → ℚ)
    (wO : ℕ → ℕ → ℕ → ℕ → ℚ) (postBias : ℕ → ℕ → ℚ)
    (b p h d : ℕ)
    (h1 : ∀ x y l, l < nMlp → amlp x y l = 1)
    (h2 : ∀ x y l s, l < nAttn → s < nHeads → aattn x y l s = 1) :
    attnHookOut nMlp nAttn nHeads nDh amlp aattn mlpCache attnCache
      modalMlp modalAttn wO postBias b p h d =
    residStream nMlp nAttn nHeads nDh mlpCache attnCache wO postBias b p d := by
  unfold attnHookOut residStream
  have e1 : (∑ l ∈ Finset.range nMlp, amlp b h l * mlpCache l b p d) =
      ∑ l ∈ Finset.range nMlp, mlpCache l b p d :=
    Finset.sum_congr rfl fun l hl => by
      rw [h1 b h l (Finset.mem_range.mp hl), one_mul]
  have e2 : (∑ l ∈ Finset.range nMlp, modalTerm (amlp b h l) (modalMlp l d)) = 0 :=
    Finset.sum_eq_zero fun l hl => by
      rw [h1 b h l (Finset.mem_range.mp hl), modalTerm_one]
  have e3 : (∑ l ∈ Finset.range nAttn, ∑ s ∈ Finset.range nHeads,
      ∑ t ∈ Finset.range nDh,
        (aattn b h l s * attnCache l b p s t +
          modalTerm (aattn b h l s) (modalAttn l s t)) * wO l s t d) =
      ∑ l ∈ Finset.range nAttn, ∑ s ∈ Finset.range nHeads,
        ∑ t ∈ Finset.range nDh, attnCache l b p s t * wO l s t d :=
    Finset.sum_congr rfl fun l hl => Finset.sum_congr rfl fun s hs =>
      Finset.sum_congr rfl fun t _ => by
        rw [h2 b h l s (Finset.mem_range.mp hl) (Finset.mem_range.mp hs),
          modalTerm_one, one_mul, add_zero]
  rw [e1, e2, e3]
  ring

theorem mlpHookOut_ones (nMlp nAttn nHeads nDh : ℕ)
    (mmlp : ℕ → ℕ → ℚ) (mattn : ℕ → ℕ → ℕ → ℚ)
    (mlpCache : ℕ → ℕ → ℕ → ℕ → ℚ) (attnCache : ℕ → ℕ → ℕ → ℕ → ℕ → ℚ)
    (modalMlp : ℕ → ℕ → ℚ) (modalAttn : ℕ → ℕ → ℕ → ℚ)
    (wO : ℕ → ℕ → ℕ → ℕ → ℚ) (postBias : ℕ → ℕ → ℚ)
    (b p d : ℕ)
    (h1 : ∀ x l, l < nMlp → mmlp x l = 1)
    (h2 : ∀ x l s, l < nAttn → s < nHeads → mattn x l s = 1) :
    mlpHookOut nMlp nAttn nHeads nDh mmlp mattn mlpCache attnCache
      modalMlp modalAttn wO postBias b p d =
    residStream nMlp nAttn nHeads nDh mlpCache attnCache wO postBias b p d := by
  unfold mlpHookOut residStream
  have e1 : (∑ l ∈ Finset.range nMlp, mmlp b l * mlpCache l b p d) =
      ∑ l ∈ Finset.range nMlp, mlpCache l b p d :=
    Finset.sum_congr rfl fun l hl => by
      rw [h1 b l (Finset.mem_range.mp hl), one_mul]
  have e2 : (∑ l ∈ Finset.range nMlp, modalTerm (mmlp b l) (modalMlp l d)) = 0 :=
    Finset.sum_eq_zero fun l hl => by
      rw [h1 b l (Finset.mem_range.mp hl), modalTerm_one]
  have e3 : (∑ l ∈ Finset.range nAttn, ∑ s ∈ Finset.range nHeads,
      ∑ t ∈ Finset.range nDh,
        (mattn b l s * attnCache l b p s t +
          modalTerm (mattn b l s) (modalAttn l s t)) * wO l s t d) =
      ∑ l ∈ Finset.range nAttn, ∑ s ∈ Finset.range nHeads,
        ∑ t ∈ Finset.range nDh, attnCache l b p s t * wO l s t d :=
    Finset.sum_congr rfl fun l hl => Finset.sum_congr rfl fun s hs =>
      Finset.sum_congr rfl fun t _ => by
        rw [h2 b l s (Finset.mem_range.mp hl) (Finset.mem_range.mp hs),
          modalTerm_one, one_mul, add_zero]
  rw [e1, e2, e3]
  ring

theorem mlpHookOut_zeros (nMlp nAttn nHeads nDh : ℕ)
    (mmlp : ℕ → ℕ → ℚ) (mattn : ℕ → ℕ → ℕ → ℚ)
    (mlpCache : ℕ → ℕ → ℕ → ℕ → ℚ) (attnCache : ℕ → ℕ → ℕ → ℕ → ℕ → ℚ)
    (modalMlp : ℕ → ℕ → ℚ) (modalAttn : ℕ → ℕ → ℕ → ℚ)
    (wO : ℕ → ℕ → ℕ → ℕ → ℚ) (postBias : ℕ → ℕ → ℚ)
    (b p d : ℕ)
    (h1 : ∀ x l, l < nMlp → mmlp x l = 0)
    (h2 : ∀ x l s, l < nAttn → s < nHeads → mattn x l s = 0) :
    mlpHookOut nMlp nAttn nHeads nDh mmlp mattn mlpCache attnCache
      modalMlp modalAttn wO postBias b p d =
    (∑ l ∈ Finset.range nMlp, modalMlp l d) +
      (∑ l ∈ Finset.range nAttn, ∑ s ∈ Finset.range nHeads,
        ∑ t ∈ Finset.range nDh, modalAttn l s t * wO l s t d) +
      (∑ l ∈ Finset.range nAttn, postBias l d) := by
  unfold mlpHookOut
  have e1 : (∑ l ∈ Finset.range nMlp, mmlp b l * mlpCache l b p d) = 0 :=
    Finset.sum_eq_zero fun l hl => by
      rw [h1 b l (Finset.mem_range.mp hl), zero_mul]
  have e2 : (∑ l ∈ Finset.range nMlp, modalTerm (mmlp b l) (modalMlp l d)) =
      ∑ l ∈ Finset.range nMlp, modalMlp l d :=
    Finset.sum_congr rfl fun l hl => by
      rw [h1 b l (Finset.mem_range.mp hl), modalTerm_zero]
  have e3 : (∑ l ∈ Finset.range nAttn, ∑ s ∈ Finset.range nHeads,
      ∑ t ∈ Finset.range nDh,
        (mattn b l s * attnCache l b p s t +
          modalTerm (mattn b l s) (modalAttn l s t)) * wO l s t d) =
      ∑ l ∈ Finset.range nAttn, ∑ s ∈ Finset.range nHeads,
        ∑ t ∈ Finset.range nDh, modalAttn l s t * wO l s t d :=
    Finset.sum_congr rfl fun l hl => Finset.sum_congr rfl fun s hs =>
      Finset.sum_congr rfl fun t _ => by
        rw [h2 b l s (Finset.mem_range.mp hl) (Finset.mem_range.mp hs),
          modalTerm_zero, zero_mul, zero_add]
  rw [e1, e2, e3]
  ring

/-- Claim C10: the two indicator branches of the modal substitution partition
exactly at the 0.001 threshold, so the modal contribution equals `(1-g)*v` as a
value-level identity and both hook reconstructions coincide with their
threshold-free reference forms. -/
theorem c10_modal_threshold_partition (g v : ℚ) (nMlp nAttn nHeads nDh : ℕ)
    (amlp : ℕ → ℕ → ℕ → ℚ) (aattn : ℕ → ℕ → ℕ → ℕ → ℚ)
    (mmlp : ℕ → ℕ → ℚ) (mattn : ℕ → ℕ → ℕ → ℚ)
    (mlpCache : ℕ → ℕ → ℕ → ℕ → ℚ) (attnCache : ℕ → ℕ → ℕ → ℕ → ℕ → ℚ)
    (modalMlp : ℕ → ℕ → ℚ) (modalAttn : ℕ → ℕ → ℕ → ℚ)
    (wO : ℕ → ℕ → ℕ → ℕ → ℚ) (postBias : ℕ → ℕ → ℚ)
    (b p h d : ℕ) :
    modalTerm g v = (1 - g) * v ∧
    attnHookOut nMlp nAttn nHeads nDh amlp aattn mlpCache attnCache
      modalMlp modalAttn wO postBias b p h d =
    attnHookOutRef nMlp nAttn nHeads nDh amlp aattn mlpCache attnCache
      modalMlp modalAttn wO postBias b p h d ∧
    mlpHookOut nMlp nAttn nHeads nDh mmlp mattn mlpCache attnCache
      modalMlp modalAttn wO postBias b p d =
    mlpHookOutRef nMlp nAttn nHeads nDh mmlp mattn mlpCache attnCache
      modalMlp modalAttn wO postBias b p d := by
  refine ⟨modalTerm_eq g v, ?_, ?_⟩ <;>
    simp only [attnHookOut, attnHookOutRef, mlpHookOut, mlpHookOutRef,
      modalTerm_eq, modalTermRef]

end EdgePruning

namespace EdgePruning

/-- Claim C1: with every sampled gate equal to exactly 1 (modal values
arbitrary), at every patch point the reconstructed destination input equals
the original destination input, provided the original input satisfies the
residual-stream identity with respect to the cached upstream outputs; the
cache hook passes its activation through unchanged. -/
theorem c1_gates_one_reconstruction (nMlp nAttn nHeads nDh bsz : ℕ)
    (amlp : ℕ → ℕ → ℕ → ℚ) (aattn : ℕ → ℕ → ℕ → ℕ → ℚ)
    (mmlp : ℕ → ℕ → ℚ) (mattn : ℕ → ℕ → ℕ → ℚ)
    (mlpCache : ℕ → ℕ → ℕ → ℕ → ℚ) (attnCache : ℕ → ℕ → ℕ → ℕ → ℕ → ℚ)
    (modalMlp : ℕ → ℕ → ℚ) (modalAttn : ℕ → ℕ → ℕ → ℚ)
    (wO : ℕ → ℕ → ℕ → ℕ → ℚ) (postBias : ℕ → ℕ → ℚ)
    (origInA : ℕ → ℕ → ℕ → ℕ → ℚ) (origInM : ℕ → ℕ → ℕ → ℚ)
    (storage : List (List ℚ)) (acts : List ℚ)
    (b p h d : ℕ)
    (h1 : ∀ x y l, l < nMlp → amlp x y l = 1)
    (h2 : ∀ x y l s, l < nAttn → s < nHeads → aattn x y l s = 1)
    (h3 : ∀ x l, l < nMlp → mmlp x l = 1)
    (h4 : ∀ x l s, l < nAttn → s < nHeads → mattn x l s = 1)
    (h5 : ∀ x q y e, origInA x q y e =
      residStream nMlp nAttn nHeads nDh mlpCache attnCache wO postBias x q e)
    (h6 : ∀ x q e, origInM x q e =
      residStream nMlp nAttn nHeads nDh mlpCache attnCache wO postBias x q e) :
    attnHook false bsz nMlp nAttn nHeads nDh origInA amlp aattn mlpCache
      attnCache modalMlp modalAttn wO postBias b p h d = origInA b p h d ∧
    mlpHook false bsz nMlp nAttn nHeads nDh origInM mmlp mattn mlpCache
      attnCache modalMlp modalAttn wO postBias b p d = origInM b p d ∧
    (cacheHookAllTokens false bsz storage acts).2 = acts := by
  refine ⟨?_, ?_, by simp [cacheHookAllTokens]⟩
  · simp only [attnHook, prependOrig, Bool.false_eq_true, if_false, prependOrigSeq]
    by_cases hp : p = 0
    · simp [hp]
    · rw [if_neg hp, attnHookOut_ones nMlp nAttn nHeads nDh amlp aattn mlpCache
        attnCache modalMlp modalAttn wO postBias b p h d h1 h2, h5]
  · simp only [mlpHook, prependOrig, Bool.false_eq_true, if_false, prependOrigSeq]
    by_cases hp : p = 0
    · simp [hp]
    · rw [if_neg hp, mlpHookOut_ones nMlp nAttn nHeads nDh mmlp mattn mlpCache
        attnCache modalMlp modalAttn wO postBias b p d h3 h4, h6]

/-- Witness for C1 at a concrete one-layer-cache instance. -/
theorem c1_gates_one_reconstruction_witness :
    attnHook false 1 1 0 0 0 (fun _ _ _ _ => (5 : ℚ)) (fun _ _ _ => 1)
      (fun _ _ _ _ => 1) (fun _ _ _ _ => 5) (fun _ _ _ _ _ => 0)
      (fun _ _ => 9) (fun _ _ _ => 9) (fun _ _ _ _ => 0) (fun _ _ => 0)
      0 2 0 0 = 5 ∧
    mlpHook false 1 1 0 0 0 (fun _ _ _ => (5 : ℚ)) (fun _ _ => 1)
      (fun _ _ _ => 1) (fun _ _ _ _ => 5) (fun _ _ _ _ _ => 0)
      (fun _ _ => 9) (fun _ _ _ => 9) (fun _ _ _ _ => 0) (fun _ _ => 0)
      0 2 0 = 5 ∧
    (cacheHookAllTokens false 1 ([] : List (List ℚ)) [3]).2 = [3] := by
  refine c1_gates_one_reconstruction 1 0 0 0 1 (fun _ _ _ => 1)
    (fun _ _ _ _ => 1) (fun _ _ => 1) (fun _ _ _ => 1) (fun _ _ _ _ => 5)
    (fun _ _ _ _ _ => 0) (fun _ _ => 9) (fun _ _ _ => 9) (fun _ _ _ _ => 0)
    (fun _ _ => 0) (fun _ _ _ _ => 5) (fun _ _ _ => 5) [] [3] 0 2 0 0
    (fun _ _ _ _ => rfl) (fun _ _ _ _ _ _ => rfl) (fun _ _ _ => rfl)
    (fun _ _ _ _ _ => rfl) (fun x q y e => ?_) (fun x q e => ?_) <;>
    simp [residStream]

/-- Counterexample to claim C2 as stated: with every gate exactly 0, the
final-hook output still depends on the input batch when the last-token mask
latches sequence position 0, because `prepend_orig` passes the original
residual through at position 0. Two runs differing only in the original
input produce outputs 1 and 2. -/
theorem c2_counterexample :
    finalHook false 1 1 0 0 0 1 (fun _ _ _ => (1 : ℚ)) (fun _ _ => 1)
      (fun _ _ => 0) (fun _ _ _ => 0) (fun _ _ _ _ => 0) (fun _ _ _ _ _ => 0)
      (fun _ _ => 0) (fun _ _ _ => 0) (fun _ _ _ _ => 0) (fun _ _ => 0)
      0 0 = 1 ∧
    finalHook false 1 1 0 0 0 1 (fun _ _ _ => (2 : ℚ)) (fun _ _ => 1)
      (fun _ _ => 0) (fun _ _ _ => 0) (fun _ _ _ _ => 0) (fun _ _ _ _ _ => 0)
      (fun _ _ => 0) (fun _ _ _ => 0) (fun _ _ _ _ => 0) (fun _ _ => 0)
      0 0 = 2 ∧
    (1 : ℚ) ≠ 2 := by
  refine ⟨?_, ?_, by norm_num⟩ <;>
    simp [finalHook, mlpHook, prependOrig, prependOrigSeq, mlpHookOut]

/-- Claim C2 (amended): with every sampled gate exactly 0, the final-hook
output is a function of the modal values, projection weights, biases and
last-token mask alone — invariant across two runs with different input
batches (different original residuals and caches) — provided the shared
last-token mask places zero weight on sequence position 0, where the original
residual is passed through. -/
theorem c2_zero_gates_modal_invariance (bsz nMlp nAttn nHeads nDh seqLen : ℕ)
    (mm1 mm2 : ℕ → ℕ → ℚ) (ma1 ma2 : ℕ → ℕ → ℕ → ℚ)
    (mlpCache1 mlpCache2 : ℕ → ℕ → ℕ → ℕ → ℚ)
    (attnCache1 attnCache2 : ℕ → ℕ → ℕ → ℕ → ℕ → ℚ)
    (origIn1 origIn2 : ℕ → ℕ → ℕ → ℚ)
    (modalMlp : ℕ → ℕ → ℚ) (modalAttn : ℕ → ℕ → ℕ → ℚ)
    (wO : ℕ → ℕ → ℕ → ℕ → ℚ) (postBias : ℕ → ℕ → ℚ) (ltm : ℕ → ℕ → ℚ)
    (b d : ℕ)
    (h1 : ∀ x l, l < nMlp → mm1 x l = 0)
    (h2 : ∀ x l s, l < nAttn → s < nHeads → ma1 x l s = 0)
    (h3 : ∀ x l, l < nMlp → mm2 x l = 0)
    (h4 : ∀ x l s, l < nAttn → s < nHeads → ma2 x l s = 0)
    (h0 : ltm b 0 = 0) :
    finalHook false bsz nMlp nAttn nHeads nDh seqLen origIn1 ltm mm1 ma1
      mlpCache1 attnCache1 modalMlp modalAttn wO postBias b d =
    finalHook false bsz nMlp nAttn nHeads nDh seqLen origIn2 ltm mm2 ma2
      mlpCache2 attnCache2 modalMlp modalAttn wO postBias b d := by
  unfold finalHook
  refine Finset.sum_congr rfl fun p _ => ?_
  simp only [mlpHook, prependOrig, Bool.false_eq_true, if_false, prependOrigSeq]
  by_cases hp : p = 0
  · rw [hp, if_pos rfl, if_pos rfl, h0, zero_mul, zero_mul]
  · rw [if_neg hp, if_neg hp,
      mlpHookOut_zeros nMlp nAttn nHeads nDh mm1 ma1 mlpCache1 attnCache1
        modalMlp modalAttn wO postBias b p d h1 h2,
      mlpHookOut_zeros nMlp nAttn nHeads nDh mm2 ma2 mlpCache2 attnCache2
        modalMlp modalAttn wO postBias b p d h3 h4]

/-- Witness for the amended C2 at a concrete instance with two distinct
original inputs and caches and the answer latched at position 1. -/
theorem c2_zero_gates_modal_invariance_witness :
    finalHook false 1 1 0 0 0 2 (fun _ _ _ => (1 : ℚ))
      (fun _ p => if p = 0 then 0 else 1) (fun _ _ => 0) (fun _ _ _ => 0)
      (fun _ _ _ _ => 4) (fun _ _ _ _ _ => 0) (fun _ _ => 8) (fun _ _ _ => 0)
      (fun _ _ _ _ => 0) (fun _ _ => 0) 0 0 =
    finalHook false 1 1 0 0 0 2 (fun _ _ _ => (2 : ℚ))
      (fun _ p => if p = 0 then 0 else 1) (fun _ _ => 0) (fun _ _ _ => 0)
      (fun _ _ _ _ => 6) (fun _ _ _ _ _ => 0) (fun _ _ => 8) (fun _ _ _ => 0)
      (fun _ _ _ _ => 0) (fun _ _ => 0) 0 0 := by
  refine c2_zero_gates_modal_invariance 1 1 0 0 0 2 (fun _ _ => 0)
    (fun _ _ => 0) (fun _ _ _ => 0) (fun _ _ _ => 0) (fun _ _ _ _ => 4)
    (fun _ _ _ _ => 6) (fun _ _ _ _ _ => 0) (fun _ _ _ _ _ => 0)
    (fun _ _ _ => 1) (fun _ _ _ => 2) (fun _ _ => 8) (fun _ _ _ => 0)
    (fun _ _ _ _ => 0) (fun _ _ => 0) (fun _ p => if p = 0 then 0 else 1)
    0 0 (fun _ _ _ => rfl) (fun _ _ _ _ _ => rfl) (fun _ _ _ => rfl)
    (fun _ _ _ _ _ => rfl) rfl

end EdgePruning

namespace EdgePruning

/-- Counterexample to claim C7 as stated: in parallel-inference mode
`prepend_orig` concatenates along the batch dimension, so a sampled row's
value at sequence position 0 is the reconstructed value (here the modal value
7), not the original incoming value (here 10). -/
theorem c7_counterexample :
    attnHook true 1 1 0 0 0 (fun _ _ _ _ => (10 : ℚ)) (fun _ _ _ => 0)
      (fun _ _ _ _ => 0) (fun _ _ _ _ => 0) (fun _ _ _ _ _ => 0)
      (fun _ _ => 7) (fun _ _ _ => 0) (fun _ _ _ _ => 0) (fun _ _ => 0)
      1 0 0 0 = 7 ∧
    (fun _ _ _ _ => (10 : ℚ)) 1 0 0 0 = 10 ∧
    (7 : ℚ) ≠ 10 := by
  refine ⟨?_, rfl, by norm_num⟩
  simp [attnHook, prependOrig, prependOrigPar, attnHookOut, modalTerm]

/-- Claim C7 (amended): for the attention-input and MLP-input patching hooks
in non-parallel inference mode, for every mask value, the returned tensor at
sequence position 0 equals the original incoming tensor at position 0; in
parallel-inference mode only the first `batch_size` rows pass through, and
the final hook latches away the sequence dimension. -/
theorem c7_bos_passthrough_nonparallel (bsz nMlp nAttn nHeads nDh : ℕ)
    (amlp : ℕ → ℕ → ℕ → ℚ) (aattn : ℕ → ℕ → ℕ → ℕ → ℚ)
    (mmlp : ℕ → ℕ → ℚ) (mattn : ℕ → ℕ → ℕ → ℚ)
    (mlpCache : ℕ → ℕ → ℕ → ℕ → ℚ) (attnCache : ℕ → ℕ → ℕ → ℕ → ℕ → ℚ)
    (modalMlp : ℕ → ℕ → ℚ) (modalAttn : ℕ → ℕ → ℕ → ℚ)
    (wO : ℕ → ℕ → ℕ → ℕ → ℚ) (postBias : ℕ → ℕ → ℚ)
    (origInA : ℕ → ℕ → ℕ → ℕ → ℚ) (origInM : ℕ → ℕ → ℕ → ℚ)
    (b h d : ℕ) :
    attnHook false bsz nMlp nAttn nHeads nDh origInA amlp aattn mlpCache
      attnCache modalMlp modalAttn wO postBias b 0 h d = origInA b 0 h d ∧
    mlpHook false bsz nMlp nAttn nHeads nDh origInM mmlp mattn mlpCache
      attnCache modalMlp modalAttn wO postBias b 0 d = origInM b 0 d := by
  constructor <;> simp [attnHook, mlpHook, prependOrig, prependOrigSeq]

end EdgePruning

namespace EdgePruning

/-- Claim C3: every entry returned by `sample_hard_concrete` lies in the
closed interval `[0, 1]`, for every uniform-noise input in `[0, 1)` and every
location/sharpness parameter and endpoint constants. -/
theorem c3_gate_in_unit_interval (e0 e1 unif loc sharp : ℝ)
    (_h0 : 0 ≤ unif) (_h1 : unif < 1) :
    0 ≤ sampleHardConcrete e0 e1 unif loc sharp ∧
      sampleHardConcrete e0 e1 unif loc sharp ≤ 1 := by
  unfold sampleHardConcrete
  exact ⟨le_min zero_le_one (le_max_left 0 _), min_le_left 1 _⟩

/-- Witness for C3 at the stretched-concrete endpoints `(-0.1, 1.1)` and a
concrete uniform draw. -/
theorem c3_gate_in_unit_interval_witness :
    (0 : ℝ) ≤ 1 / 2 ∧ (1 / 2 : ℝ) < 1 ∧
    (0 ≤ sampleHardConcrete (-(1 / 10)) (11 / 10) (1 / 2) 0 (2 / 3) ∧
      sampleHardConcrete (-(1 / 10)) (11 / 10) (1 / 2) 0 (2 / 3) ≤ 1) :=
  ⟨by norm_num, by norm_num,
    c3_gate_in_unit_interval (-(1 / 10)) (11 / 10) (1 / 2) 0 (2 / 3)
      (by norm_num) (by norm_num)⟩

theorem sigmoid_le_sigmoid {x y : ℝ} (h : x ≤ y) : sigmoid x ≤ sigmoid y := by
  unfold sigmoid
  have hy : (0 : ℝ) < 1 + Real.exp (-y) := by positivity
  have hxy : 1 + Real.exp (-y) ≤ 1 + Real.exp (-x) := by
    have hE : Real.exp (-y) ≤ Real.exp (-x) := Real.exp_le_exp.mpr (by linarith)
    linarith
  exact one_div_le_one_div_of_le hy hxy

/-- Claim C6: holding sharpness fixed, the per-edge complexity penalty is
monotonically increasing in the location parameter. -/
theorem c6_complexity_monotone_in_location (e0 e1 sharp la lb : ℝ)
    (h : lb < la) :
    complexityLoss e0 e1 lb sharp ≤ complexityLoss e0 e1 la sharp := by
  unfold complexityLoss
  exact sigmoid_le_sigmoid (by linarith)

/-- Witness for C6 at concrete locations 0 < 1. -/
theorem c6_complexity_monotone_in_location_witness :
    complexityLoss (-(1 / 10)) (11 / 10) 0 (2 / 3) ≤
      complexityLoss (-(1 / 10)) (11 / 10) 1 (2 / 3) :=
  c6_complexity_monotone_in_location (-(1 / 10)) (11 / 10) (2 / 3) 1 0
    (by norm_num)

end EdgePruning

namespace EdgePruning

/-- Counterexample to claim C5 as stated: an infinite (non-finite, non-NaN)
sharpness entry is not reset by `fix_nans` — the NaN count is zero, so the
parameters are untouched and the call returns true even though not all
entries are finite afterwards. -/
theorem c5_counterexample :
    fixNans [[(FVal.fin 0, FVal.pinf)]] = ([[(FVal.fin 0, FVal.pinf)]], true) ∧
    allFiniteParams [[(FVal.fin 0, FVal.pinf)]] = false := by decide

theorem fixRow_sharp_not_nan (r : FVal × FVal) :
    ((fixRow r).2).isnan = false := by
  rcases r with ⟨a, b⟩
  cases b <;> rfl

theorem fixRow_fixRow (r : FVal × FVal) : fixRow (fixRow r) = fixRow r := by
  rcases r with ⟨a, b⟩
  cases b <;> rfl

theorem fixTensor_fixTensor (ts : List (FVal × FVal)) :
    fixTensor (fixTensor ts) = fixTensor ts := by
  unfold fixTensor
  rw [List.map_map]
  exact List.map_congr_left fun r _ => fixRow_fixRow r

theorem all_not_of_any_false {α : Type} (p : α → Bool) (l : List α)
    (h : l.any p = false) : (l.all fun x => !(p x)) = true := by
  induction l with
  | nil => rfl
  | cons x xs ih =>
    simp only [List.any_cons, Bool.or_eq_false_iff] at h
    simp [List.all_cons, h.1, ih h.2]

theorem paramsHaveNan_map_fix (pss : List (List (FVal × FVal))) :
    paramsHaveNan (pss.map fixTensor) =
      !(pss.all fun ts => !((fixTensor ts).any rowHasNan)) := by
  induction pss with
  | nil => rfl
  | cons ts rest ih =>
    simp only [paramsHaveNan, List.map_cons, List.any_cons, List.all_cons,
      Bool.not_and, Bool.not_not] at ih ⊢
    rw [ih]

/-- Claim C5 (amended): `fix_nans` repairs NaN (not general non-finite)
sharpness entries: after a call no sharpness entry is NaN, the returned flag
is true exactly when no NaN entry (location or sharpness) remains, and the
call is idempotent — a second call with no intervening update leaves the
parameters unchanged and returns the same flag as the first. -/
theorem c5_nan_repair_idempotent (pss : List (List (FVal × FVal))) :
    (fixNans (fixNans pss).1).1 = (fixNans pss).1 ∧
    (fixNans (fixNans pss).1).2 = (fixNans pss).2 ∧
    (fixNans pss).2 = noNanParams (fixNans pss).1 ∧
    ((fixNans pss).1.all fun ts => ts.all fun r => !(r.2.isnan)) = true := by
  by_cases h : paramsHaveNan pss = true
  · have h1 : fixNans pss =
        (pss.map fixTensor, pss.all fun ts => !((fixTensor ts).any rowHasNan)) := by
      rw [fixNans, if_pos h]
    have hall : ∀ qss : List (List (FVal × FVal)),
        (qss.map fixTensor).all (fun ts => !(ts.any rowHasNan)) =
          qss.all fun ts => !((fixTensor ts).any rowHasNan) := by
      intro qss
      rw [List.all_map]
      rfl
    have hsharp : ((pss.map fixTensor).all fun ts =>
        ts.all fun r => !(r.2.isnan)) = true := by
      rw [List.all_map]
      refine List.all_eq_true.mpr fun ts _ => ?_
      show (fixTensor ts).all (fun r => !(r.2.isnan)) = true
      unfold fixTensor
      rw [List.all_map]
      exact List.all_eq_true.mpr fun r _ => by
        show (!((fixRow r).2).isnan) = true
        rw [fixRow_sharp_not_nan]
        rfl
    by_cases hb : (pss.all fun ts => !((fixTensor ts).any rowHasNan)) = true
    · have h2 : paramsHaveNan (pss.map fixTensor) = false := by
        rw [paramsHaveNan_map_fix, hb]
        rfl
      have h3 : fixNans (pss.map fixTensor) = (pss.map fixTensor, true) := by
        rw [fixNans, if_neg (by rw [h2]; exact Bool.false_ne_true)]
      refine ⟨?_, ?_, ?_, ?_⟩
      · rw [h1, h3]
      · rw [h1, h3, hb]
      · rw [h1, hb]
        exact ((hall pss).trans hb).symm
      · rw [h1]
        exact hsharp
    · have hbf : (pss.all fun ts => !((fixTensor ts).any rowHasNan)) = false :=
        Bool.eq_false_iff.mpr hb
      have h2 : paramsHaveNan (pss.map fixTensor) = true := by
        rw [paramsHaveNan_map_fix, hbf]
        rfl
      have hmm : (pss.map fixTensor).map fixTensor = pss.map fixTensor := by
        rw [List.map_map]
        exact List.map_congr_left fun ts _ => fixTensor_fixTensor ts
      have h3 : fixNans (pss.map fixTensor) =
          ((pss.map fixTensor).map fixTensor,
            (pss.map fixTensor).all fun ts => !((fixTensor ts).any rowHasNan)) := by
        rw [fixNans, if_pos h2]
      have h4 : ((pss.map fixTensor).all fun ts =>
          !((fixTensor ts).any rowHasNan)) =
          pss.all fun ts => !((fixTensor ts).any rowHasNan) := by
        rw [List.all_map]
        congr 1
        funext ts
        show (!((fixTensor (fixTensor ts)).any rowHasNan)) = _
        rw [fixTensor_fixTensor]
      refine ⟨?_, ?_, ?_, ?_⟩
      · rw [h1, h3, hmm]
      · rw [h1, h3, h4]
      · rw [h1]
        exact (hall pss).symm
      · rw [h1]
        exact hsharp
  · have hf : paramsHaveNan pss = false := Bool.eq_false_iff.mpr h
    have hf2 : (pss.any fun ts => ts.any rowHasNan) = false := hf
    have h1 : fixNans pss = (pss, true) := by
      rw [fixNans, if_neg (by rw [hf]; exact Bool.false_ne_true)]
    have hno : noNanParams pss = true := all_not_of_any_false _ _ hf2
    refine ⟨by rw [h1, h1], by rw [h1, h1], by rw [h1, hno], ?_⟩
    rw [h1]
    have hall2 := all_not_of_any_false (fun ts => ts.any rowHasNan) pss hf2
    refine List.all_eq_true.mpr fun ts hts => ?_
    have hts2 : (ts.any rowHasNan) = false := by
      have h5 := List.all_eq_true.mp hall2 ts hts
      simpa using h5
    refine List.all_eq_true.mpr fun r hr => ?_
    have hr2 : rowHasNan r = false := by
      have h6 := List.all_eq_true.mp (all_not_of_any_false rowHasNan ts hts2) r hr
      simpa using h6
    simp only [rowHasNan, Bool.or_eq_false_iff] at hr2
    rw [hr2.2]
    rfl

end EdgePruning

namespace EdgePruning

/-- Claim C9: when no sharpness entry exceeds 1, the `temp_cond` metric of
`get_mask_loss` is the finite sentinel 1 — the raw division has a zero
denominator (a non-finite float), and `nan_to_num` replaces it by 0 before the
`+ 1`, so no non-finite value reaches the metrics dictionary. -/
theorem c9_temp_cond_sentinel (params : List (ℚ × ℚ))
    (h : ∀ r ∈ params, r.2 ≤ 1) :
    tempCondRaw (params.map Prod.snd) = none ∧
      getMaskLossTempCond params = 1 := by
  have hf : ((params.map Prod.snd).filter fun s => 1 < s) = [] := by
    refine List.filter_eq_nil_iff.mpr fun s hs => ?_
    rcases List.mem_map.mp hs with ⟨r, hr, rfl⟩
    simpa using not_lt.mpr (h r hr)
  constructor
  · simp [tempCondRaw, hf]
  · simp [getMaskLossTempCond, tempCondRaw, hf, nanToNumZero]

/-- Witness for C9 on a parameter list whose sharpness column is below 1. -/
theorem c9_temp_cond_sentinel_witness :
    tempCondRaw ([((0 : ℚ), (1 / 2 : ℚ))].map Prod.snd) = none ∧
      getMaskLossTempCond [((0 : ℚ), (1 / 2 : ℚ))] = 1 :=
  c9_temp_cond_sentinel [(0, 1 / 2)]
    (by intro r hr; rcases List.mem_singleton.mp hr with rfl; norm_num)

/-- Counterexample to claim C4 as stated: when the convergence condition
fails, `early_term` sets the counter to `max(0, c - 2)` — from 3 it falls to
1, not to the 2 that a decrement-by-one would give. -/
theorem c4_counterexample :
    earlyTermStep false 3 = 1 ∧ earlyTermStep false 3 ≠ 3 - 1 := by decide

/-- Claim C4 (amended): once the log holds at least 500 steps, each
`early_term` call increments the counter by one when the convergence
condition holds and otherwise decrements it by two floored at zero (before
500 steps it returns 0 and leaves the counter untouched); along any sequence
of post-500 calls starting at counter 0, the first time the returned counter
reaches the halting threshold 10 it equals exactly 10, and that call's
condition was an increment. -/
theorem c4_early_term_amended :
    (∀ c, earlyTermStep true c = c + 1) ∧
    (∀ c, earlyTermStep false c = c - 2) ∧
    (∀ t b c, t < 500 → earlyTermCall t b c = (c, 0)) ∧
    (∀ conds b, counterAfter conds < 10 →
      10 ≤ counterAfter (conds ++ [b]) →
      counterAfter (conds ++ [b]) = 10 ∧ b = true) := by
  refine ⟨fun c => rfl, fun c => rfl,
    fun t b c ht => by simp [earlyTermCall, ht], ?_⟩
  intro conds b hlt hge
  have hstep : counterAfter (conds ++ [b]) =
      earlyTermStep b (counterAfter conds) := by
    simp [counterAfter, List.foldl_append]
  cases b with
  | false =>
    exfalso
    rw [hstep] at hge
    simp only [earlyTermStep, Bool.false_eq_true, if_false] at hge
    omega
  | true =>
    rw [hstep] at hge ⊢
    simp only [earlyTermStep, if_true] at hge ⊢
    exact ⟨by omega, trivial⟩

/-- Witness for the amended C4: an early call returns 0, and nine increments
followed by a tenth reach the threshold exactly at 10. -/
theorem c4_early_term_amended_witness :
    earlyTermCall 0 true 5 = (5, 0) ∧
    (counterAfter (List.replicate 9 true ++ [true]) = 10 ∧ true = true) :=
  ⟨c4_early_term_amended.2.2.1 0 true 5 (by norm_num),
    c4_early_term_amended.2.2.2 (List.replicate 9 true) true (by decide)
      (by decide)⟩

/-- Claim C8 evidence (code bug): when the `try` block of the attention
patching hook raises while multiplying `mlp_mask` into the stacked MLP cache
(the spec's own wrong-layer-count scenario) the local `attn_mask` is not yet
bound, so the `except` block's `print(attn_mask.shape)` itself raises
`UnboundLocalError`: the attention-mask shape is never printed and the
original exception is replaced instead of re-raised.  Only an exception
raised after both masks are bound produces the documented behaviour. -/
theorem c8_handler_masks_original_exception :
    attnHookOnException FailStage.mlpStack =
      ([Operand.sampledMaskTensor, Operand.origShape, Operand.mlpMaskShape],
        PyExc.unboundLocal) ∧
    (attnHookOnException FailStage.mlpStack).2 ≠ PyExc.original ∧
    Operand.attnMaskShape ∉ (attnHookOnException FailStage.mlpStack).1 ∧
    attnHookOnException FailStage.attnCompute =
      ([Operand.sampledMaskTensor, Operand.origShape, Operand.mlpMaskShape,
        Operand.attnMaskShape], PyExc.original) := by
  decide

end EdgePruning
